import Mathlib

/- Shallow embedding of the Rasad_v2 social-media monitoring core
   (adaptive scheduler, credential pool, ingestion store) and proofs of
   its specified properties.  Python dictionaries are modelled as
   association lists, datetimes as integer timestamps (seconds), and
   Python float arithmetic as exact rational arithmetic.  Logging calls
   are omitted (they do not affect observable state). -/

namespace Rasad

/-- Association-list lookup, modelling Python dict access.  The first
binding wins; the embedded code never builds duplicate keys. -/
def alookup {β : Type} (k : String) : List (String × β) → Option β
  | [] => none
  | e :: l => if e.1 = k then some e.2 else alookup k l

/-- Overwrite the value bound to key `k`, modelling Python dict assignment
`d[k] = v` for a key already present.  Entries with other keys are
untouched; under duplicate-free keys this coincides with dict update. -/
def overwriteVal {β : Type} (k : String) (v : β) (l : List (String × β)) :
    List (String × β) :=
  l.map (fun e => if e.1 = k then (e.1, v) else e)

/-- Update the first element satisfying `p`, modelling an in-place mutation
of the row returned by `session.query(...).filter_by(...).first()`. -/
def updFirst {α : Type} (p : α → Bool) (f : α → α) : List α → List α
  | [] => []
  | a :: l => if p a then f a :: l else a :: updFirst p f l

/-- Python `int()` truncation toward zero, on the rational model of floats. -/
def pyInt (q : ℚ) : ℤ := if 0 ≤ q then ⌊q⌋ else ⌈q⌉

/- ## Adaptive scheduler (src/monitoring/scheduler.py) -/

/-- Per-topic polling status of `DynamicScheduler`. -/
inductive Status : Type
  | normal
  | critical
deriving DecidableEq

/-- A row of the `keywords` table as seen by the scheduler. -/
structure SchedKeywordRow where
  id : ℕ
  text : String
deriving DecidableEq

/-- A row of the `monitoring_schedules` table. -/
structure ScheduleRow where
  keyword_id : ℕ
  normal_interval : ℤ
  critical_interval : ℤ
  last_check : Option ℤ
  is_critical : Bool
deriving DecidableEq

/-- In-memory state of `DynamicScheduler` together with the database
tables it reads and writes (`keywords`, `monitoring_schedules`). -/
structure SchedulerState where
  normal_intervals : List (String × ℤ)
  critical_intervals : List (String × ℤ)
  current_status : List (String × Status)
  default_normal_interval : ℤ
  default_critical_interval : ℤ
  db_keywords : List SchedKeywordRow
  db_schedules : List ScheduleRow
deriving DecidableEq

/-- `DynamicScheduler._calculate_interval`:
`factor = 1 - importance / 10; return int(base_interval * (0.5 + factor * 0.5))`. -/
def calculate_interval (importance : ℤ) (base_interval : ℤ) : ℤ :=
  pyInt ((base_interval : ℚ) * (1 / 2 + (1 - (importance : ℚ) / 10) * (1 / 2)))

/-- `DynamicScheduler.get_interval`. -/
def get_interval (s : SchedulerState) (keyword : String) : ℤ :=
  match alookup keyword s.current_status with
  | none => s.default_normal_interval
  | some st =>
    if st = Status.critical then
      (alookup keyword s.critical_intervals).getD s.default_critical_interval
    else
      (alookup keyword s.normal_intervals).getD s.default_normal_interval

/-- `DynamicScheduler._update_db_status`: find the keyword row; if absent,
warn and return without writing; otherwise update the first matching
schedule row in place, or insert a fresh one. -/
def update_db_status (s : SchedulerState) (keyword : String) (is_critical : Bool)
    (now : ℤ) : SchedulerState :=
  match s.db_keywords.find? (fun r => r.text == keyword) with
  | none => s
  | some kw =>
    if s.db_schedules.any (fun r => r.keyword_id == kw.id) then
      let upd : ScheduleRow → ScheduleRow :=
        fun r => { r with is_critical := is_critical, last_check := some now }
      { s with db_schedules := updFirst (fun r => r.keyword_id == kw.id) upd s.db_schedules }
    else
      let fresh : ScheduleRow :=
        ⟨kw.id,
         (alookup keyword s.normal_intervals).getD s.default_normal_interval,
         (alookup keyword s.critical_intervals).getD s.default_critical_interval,
         some now, is_critical⟩
      { s with db_schedules := s.db_schedules ++ [fresh] }

/-- `DynamicScheduler.set_critical_status`: no-op for an unknown keyword,
otherwise update the in-memory status and persist it. -/
def set_critical_status (s : SchedulerState) (keyword : String) (is_critical : Bool)
    (now : ℤ) : SchedulerState :=
  match alookup keyword s.current_status with
  | none => s
  | some _ =>
    update_db_status
      { s with current_status := overwriteVal keyword (if is_critical then Status.critical else Status.normal) s.current_status }
      keyword is_critical now

/-- `DynamicScheduler.manager_tweeted`: broadcast escalation over every
known keyword. -/
def manager_tweeted (s : SchedulerState) (now : ℤ) : SchedulerState :=
  (s.current_status.map Prod.fst).foldl
    (fun st k => set_critical_status st k true now) s

/-- Modelled from the spec: the source files contain no due-check operation
(only the interval derivation `get_interval` is present, and `last_check`
is a column of `monitoring_schedules`).  Following the spec's words:
`isDue(topic, now)` is true if `lastCheckedAt` is unset, or
`now - lastCheckedAt >= intervalFor(status)`, where `intervalFor` is the
source's `get_interval`. -/
def isDue (s : SchedulerState) (keyword : String) (lastCheckedAt : Option ℤ)
    (now : ℤ) : Bool :=
  match lastCheckedAt with
  | none => true
  | some t => decide (get_interval s keyword ≤ now - t)

/- ## Credential pool (src/data_sources/twitter/account_manager.py) -/

/-- One credential of the rotation pool (a JSON object of `accounts.json`). -/
structure Account where
  username : String
  password : String
  email : String
  email_password : String
  active : Bool
  last_used : Option ℤ
deriving DecidableEq

/-- Transient per-credential rate-limit record
(`self.rate_limits[username]`). -/
structure RateLimit where
  remaining : ℤ
  reset_time : ℤ
deriving DecidableEq

/-- State of `AccountManager`: the in-memory pool, the transient rate-limit
dict, and the current contents of the durable `accounts.json` file
(`saved_file` models what `_save_accounts` last wrote). -/
structure AccountManager where
  accounts : List Account
  rate_limits : List (String × RateLimit)
  saved_file : List Account
deriving DecidableEq

/-- `AccountManager.get_active_accounts`. -/
def get_active_accounts (m : AccountManager) : List Account :=
  m.accounts.filter (fun a => a.active)

/-- The skip condition of the selection loop:
`now < rate_limit["reset_time"] and rate_limit["remaining"] <= 0`
(false when the username has no rate-limit record). -/
def isRateLimited (m : AccountManager) (now : ℤ) (username : String) : Bool :=
  match alookup username m.rate_limits with
  | some rl => decide (now < rl.reset_time) && decide (rl.remaining ≤ 0)
  | none => false

/-- Idle time in minutes since last use, with the sentinel 1000 for a
credential that has never been used. -/
def idleMinutes (now : ℤ) (a : Account) : ℚ :=
  match a.last_used with
  | some t => ((now - t : ℤ) : ℚ) / 60
  | none => 1000

/-- `self.rate_limits.get(username, {}).get("remaining", 100)`. -/
def remainingOf (m : AccountManager) (username : String) : ℚ :=
  match alookup username m.rate_limits with
  | some rl => (rl.remaining : ℚ)
  | none => 100

/-- `score = idle_time_minutes * 0.7 + remaining * 0.3`. -/
def scoreOf (m : AccountManager) (now : ℤ) (a : Account) : ℚ :=
  idleMinutes now a * (7 / 10) + remainingOf m a.username * (3 / 10)

/-- The `available_accounts` list built by the selection loop: active
accounts that are not currently rate-limited, each paired with its score,
in pool order. -/
def available_accounts (m : AccountManager) (now : ℤ) : List (Account × ℚ) :=
  (get_active_accounts m).filterMap (fun a =>
    if isRateLimited m now a.username then none
    else some (a, scoreOf m now a))

/-- Insert into a descending-by-score list, after any earlier element of
equal score. -/
def insertDesc {α : Type} (x : α × ℚ) : List (α × ℚ) → List (α × ℚ)
  | [] => [x]
  | y :: ys => if y.2 < x.2 then x :: y :: ys else y :: insertDesc x ys

/-- `available_accounts.sort(key=lambda x: x[1], reverse=True)`: Python's
sort is stable, so equal-score elements keep pool order; a left fold of
stable descending insertion has exactly that behaviour. -/
def sortByScoreDesc {α : Type} (l : List (α × ℚ)) : List (α × ℚ) :=
  l.foldl (fun acc x => insertDesc x acc) []

/-- One step of a left-to-right maximum scan keeping the earliest maximum:
the selection behaviour of a stable descending sort followed by `[0]`. -/
def firstMaxStep {α : Type} (acc : Option (α × ℚ)) (x : α × ℚ) : Option (α × ℚ) :=
  match acc with
  | none => some x
  | some b => if b.2 < x.2 then some x else some b

/-- The filter the specification calls "active and healthy". -/
def healthy (m : AccountManager) (now : ℤ) : List Account :=
  m.accounts.filter (fun a => a.active && !(isRateLimited m now a.username))

/-- `AccountManager.get_healthy_account`: returns the selected credential
(with `last_used` stamped to `now`) and the updated manager state.  The
source mutates the selected dict object in place; since usernames are
unique in the pool, stamping the account with the selected username is
the same update. -/
def get_healthy_account (m : AccountManager) (now : ℤ) :
    Option Account × AccountManager :=
  let active := get_active_accounts m
  if active.isEmpty then (none, m)
  else
    let avail := available_accounts m now
    if avail.isEmpty then (none, m)
    else
      match (sortByScoreDesc avail).head? with
      | none => (none, m)
      | some sel =>
        let stamp : Account → Account :=
          fun a => if a.username == sel.1.username then { a with last_used := some now } else a
        let accounts2 := m.accounts.map stamp
        (some { sel.1 with last_used := some now },
         { m with accounts := accounts2, saved_file := accounts2 })

/-- `AccountManager.update_rate_limit`: dict assignment into
`self.rate_limits` (replace an existing binding, else append). -/
def update_rate_limit (m : AccountManager) (username : String) (remaining : ℤ)
    (reset_time : ℤ) : AccountManager :=
  if (alookup username m.rate_limits).isSome then
    { m with rate_limits := overwriteVal username ⟨remaining, reset_time⟩ m.rate_limits }
  else
    { m with rate_limits := m.rate_limits ++ [(username, ⟨remaining, reset_time⟩)] }

/-- Set `active` on the first account with the given username. -/
def setFirstActive (u : String) (b : Bool) : List Account → List Account
  | [] => []
  | a :: l => if a.username == u then { a with active := b } :: l
              else a :: setFirstActive u b l

/-- `AccountManager.set_account_status`: update the first account with this
username and persist; warn (no-op) when the username is absent. -/
def set_account_status (m : AccountManager) (username : String) (active : Bool) :
    AccountManager :=
  if m.accounts.any (fun a => a.username == username) then
    let accounts2 := setFirstActive username active m.accounts
    { m with accounts := accounts2, saved_file := accounts2 }
  else m

/-- `AccountManager.add_account`: refuse a duplicate username, otherwise
append a fresh active account and persist. -/
def add_account (m : AccountManager) (username password email email_password : String) :
    AccountManager :=
  if m.accounts.any (fun a => a.username == username) then m
  else
    let accounts2 := m.accounts ++ [⟨username, password, email, email_password, true, none⟩]
    { m with accounts := accounts2, saved_file := accounts2 }

/-- A pool operation among those claim C10 quantifies over. -/
inductive PoolOp : Type
  | add (username password email email_password : String)
  | setStatus (username : String) (active : Bool)
  | acquire (now : ℤ)

/-- Apply one pool operation to the manager state. -/
def applyOp (m : AccountManager) : PoolOp → AccountManager
  | .add u p e ep => add_account m u p e ep
  | .setStatus u b => set_account_status m u b
  | .acquire now => (get_healthy_account m now).2

/-- The multiset of usernames in the pool. -/
def usernames (m : AccountManager) : List String :=
  m.accounts.map (fun a => a.username)

/- ## Ingestion store (src/pipeline/storage/tweet_store.py) -/

/-- A row of the `tweets` table. -/
structure TweetRow where
  id : ℕ
  tweet_id : String
  user_id : String
  content : String
  created_at : ℤ
  retweet_count : ℤ
  like_count : ℤ
  reply_count : ℤ
  quote_count : ℤ
  lang : Option String
  is_retweet : Bool
  is_reply : Bool
  in_reply_to_tweet_id : Option String
  in_reply_to_user_id : Option String
  quoted_tweet_id : Option String
  json_data : Option String
deriving DecidableEq

/-- A row of the `users` table (fields the store touches). -/
structure UserRow where
  user_id : String
  username : String
  display_name : String
  bio : Option String
  followers_count : ℤ
  following_count : ℤ
  tweet_count : ℤ
  created_at : Option ℤ
  profile_image_url : Option String
  verified : Bool
  is_tracked : Bool
  importance : ℤ
  json_data : Option String
deriving DecidableEq

/-- A row of the `hashtags` table. -/
structure HashtagRow where
  id : ℕ
  text : String
  first_seen : ℤ
  last_seen : ℤ
  usage_count : ℤ
deriving DecidableEq

/-- A row of the `tweet_hashtags` join table. -/
structure TweetHashtagRow where
  tweet_id : ℕ
  hashtag_id : ℕ
deriving DecidableEq

/-- A row of the `mentions` table. -/
structure MentionRow where
  tweet_id : ℕ
  mentioned_user_id : String
deriving DecidableEq

/-- A row of the `media_items` table. -/
structure MediaRow where
  tweet_id : ℕ
  media_type : String
  media_url : Option String
  alt_text : Option String
deriving DecidableEq

/-- A row of the `keywords` table (fields the store touches). -/
structure KeywordRow where
  id : ℕ
  text : String
  created_at : ℤ
  last_used : ℤ
  is_active : Bool
deriving DecidableEq

/-- A row of the `tweet_keywords` join table. -/
structure TweetKeywordRow where
  tweet_id : ℕ
  keyword_id : ℕ
deriving DecidableEq

/-- The committed database state seen by `TweetStore`, with autoincrement
counters for the primary keys the store reads back after `flush()`. -/
structure StoreDB where
  tweets : List TweetRow
  users : List UserRow
  hashtags : List HashtagRow
  tweet_hashtags : List TweetHashtagRow
  mentions : List MentionRow
  media_items : List MediaRow
  keywords : List KeywordRow
  tweet_keywords : List TweetKeywordRow
  next_tweet_id : ℕ
  next_hashtag_id : ℕ
  next_keyword_id : ℕ
deriving DecidableEq

/-- A media descriptor of the raw record (`media_item.get(...)`). -/
structure MediaData where
  mtype : Option String
  url : Option String
  alt_text : Option String
deriving DecidableEq

/-- A raw fetched record (`tweet_data`): required keys are plain fields,
optional keys (read through `.get` or guarded by `in`) are `Option`s. -/
structure TweetData where
  tweet_id : String
  user_id : String
  username : String
  full_name : String
  content : String
  created_at : ℤ
  retweet_count : Option ℤ
  like_count : Option ℤ
  reply_count : Option ℤ
  quote_count : Option ℤ
  lang : Option String
  is_retweet : Option Bool
  is_reply : Option Bool
  in_reply_to_tweet_id : Option String
  in_reply_to_user_id : Option String
  quoted_tweet_id : Option String
  json_data : Option String
  hashtags : Option (List String)
  mentions : Option (List String)
  media : Option (List MediaData)
  keywords : Option (List String)
deriving DecidableEq

/-- The `user_data` dict passed to `_save_or_update_user`: a key present in
the dict is a `some` field. -/
structure UserData where
  user_id : String
  username : String
  display_name : String
  bio : Option String := none
  followers_count : Option ℤ := none
  following_count : Option ℤ := none
  tweet_count : Option ℤ := none
  created_at : Option ℤ := none
  profile_image_url : Option String := none
  verified : Option Bool := none
  is_tracked : Option Bool := none
  importance : Option ℤ := none
  json_data : Option String := none
deriving DecidableEq

/-- One entry of the configured tracked-account list. -/
structure TrackedAccount where
  username : String
  importance : Option ℤ
deriving DecidableEq

/-- `_get_tracked_accounts` builds `{account["username"]: account for ...}`,
where a later list entry overwrites an earlier one with the same username;
looking the dict up is therefore a last-match search. -/
def tracked_lookup (cfg : List TrackedAccount) (u : String) : Option TrackedAccount :=
  cfg.reverse.find? (fun a => a.username == u)

/-- The unconditional and `if key in user_data` field updates applied to an
existing user row. -/
def applyUserUpdate (ud : UserData) (u : UserRow) : UserRow :=
  { u with
    username := ud.username
    display_name := ud.display_name
    bio := match ud.bio with | some b => some b | none => u.bio
    followers_count := (ud.followers_count).getD u.followers_count
    following_count := (ud.following_count).getD u.following_count
    tweet_count := (ud.tweet_count).getD u.tweet_count
    profile_image_url := match ud.profile_image_url with
      | some p => some p
      | none => u.profile_image_url
    verified := (ud.verified).getD u.verified
    json_data := match ud.json_data with | some j => some j | none => u.json_data }

/-- The post-upsert tracked check: if the (updated) username is configured
as tracked, force `is_tracked` and overwrite `importance` from
configuration (defaulting to 5 when the configured entry lacks it). -/
def applyTracked (cfg : List TrackedAccount) (u : UserRow) : UserRow :=
  match tracked_lookup cfg u.username with
  | none => u
  | some acc => { u with is_tracked := true, importance := acc.importance.getD 5 }

/-- `TweetStore._save_or_update_user`: update the first row with this
external id in place, or insert a fresh row; then apply the tracked-account
override; return the external user id. -/
def save_or_update_user (cfg : List TrackedAccount) (db : StoreDB) (ud : UserData) :
    String × StoreDB :=
  match db.users.find? (fun u => u.user_id == ud.user_id) with
  | some _ =>
    let f : UserRow → UserRow := fun u => applyTracked cfg (applyUserUpdate ud u)
    (ud.user_id,
     { db with users := updFirst (fun u => u.user_id == ud.user_id) f db.users })
  | none =>
    let newUser : UserRow :=
      { user_id := ud.user_id
        username := ud.username
        display_name := ud.display_name
        bio := ud.bio
        followers_count := (ud.followers_count).getD 0
        following_count := (ud.following_count).getD 0
        tweet_count := (ud.tweet_count).getD 0
        created_at := ud.created_at
        profile_image_url := ud.profile_image_url
        verified := (ud.verified).getD false
        is_tracked := (ud.is_tracked).getD false
        importance := (ud.importance).getD 0
        json_data := ud.json_data }
    (ud.user_id, { db with users := db.users ++ [applyTracked cfg newUser] })

/-- Python `str.lower()`, modelled character by character (ASCII case
folding, the same fold `String.toLower` applies). -/
def pyLower (s : String) : String := String.mk (s.toList.map Char.toLower)

/-- Python `str.strip(c)`: remove the character from both ends. -/
def stripEnds (c : Char) (s : String) : String :=
  String.mk (((s.toList.dropWhile (fun d => d == c)).reverse.dropWhile
    (fun d => d == c)).reverse)

/-- `tag_text.lower().strip("#")`. -/
def normalizeTag (s : String) : String := stripEnds '#' (pyLower s)

/-- `username.lower().strip("@")`. -/
def normalizeMention (s : String) : String := stripEnds '@' (pyLower s)

/-- One iteration of the `_save_hashtags` loop: normalize the tag; bump
`last_seen` and `usage_count` of an existing row or insert a fresh one with
count 1; then insert the tweet-hashtag association. -/
def save_one_hashtag (tweet_pk : ℕ) (now : ℤ) (db : StoreDB) (tag : String) :
    StoreDB :=
  match db.hashtags.find? (fun h => h.text == normalizeTag tag) with
  | some h0 =>
    { db with
        hashtags := updFirst (fun h => h.text == normalizeTag tag)
          (fun h => { h with last_seen := now, usage_count := h.usage_count + 1 })
          db.hashtags
        tweet_hashtags := db.tweet_hashtags ++ [⟨tweet_pk, h0.id⟩] }
  | none =>
    { db with
        hashtags := db.hashtags ++
          [⟨db.next_hashtag_id, normalizeTag tag, now, now, 1⟩]
        tweet_hashtags := db.tweet_hashtags ++ [⟨tweet_pk, db.next_hashtag_id⟩]
        next_hashtag_id := db.next_hashtag_id + 1 }

/-- `TweetStore._save_hashtags`: the loop over the raw hashtag strings. -/
def save_hashtags (db : StoreDB) (tweet_pk : ℕ) (tags : List String) (now : ℤ) :
    StoreDB :=
  tags.foldl (save_one_hashtag tweet_pk now) db

/-- One iteration of the `_save_mentions` loop: normalize the handle; create
a minimal placeholder user when the handle is unknown; insert the mention
association. -/
def save_one_mention (tweet_pk : ℕ) (tweet_date : ℤ) (db : StoreDB) (mtn : String) :
    StoreDB :=
  match db.users.find? (fun u => u.username == normalizeMention mtn) with
  | some u => { db with mentions := db.mentions ++ [⟨tweet_pk, u.user_id⟩] }
  | none =>
    { db with
        users := db.users ++
          [{ user_id := ("mention_") ++ normalizeMention mtn
             username := normalizeMention mtn
             display_name := normalizeMention mtn
             bio := none
             followers_count := 0
             following_count := 0
             tweet_count := 0
             created_at := some tweet_date
             profile_image_url := none
             verified := false
             is_tracked := false
             importance := 0
             json_data := none }]
        mentions := db.mentions ++ [⟨tweet_pk, ("mention_") ++ normalizeMention mtn⟩] }

/-- `TweetStore._save_mentions`: the loop over the raw mention handles. -/
def save_mentions (db : StoreDB) (tweet_pk : ℕ) (ms : List String) (tweet_date : ℤ) :
    StoreDB :=
  ms.foldl (save_one_mention tweet_pk tweet_date) db

/-- `TweetStore._save_media`: append one media row per descriptor
(no deduplication). -/
def save_media (db : StoreDB) (tweet_pk : ℕ) (items : List MediaData) : StoreDB :=
  items.foldl
    (fun db it => { db with media_items := db.media_items ++
      [⟨tweet_pk, (it.mtype).getD ("unknown"), it.url, it.alt_text⟩] })
    db

/-- One iteration of the `_save_tweet_keywords` loop: find-or-create the
keyword row, bump `last_used` on an existing one, insert the association. -/
def save_one_keyword (tweet_pk : ℕ) (now : ℤ) (db : StoreDB) (k : String) : StoreDB :=
  match db.keywords.find? (fun r => r.text == k) with
  | none =>
    { db with
        keywords := db.keywords ++ [⟨db.next_keyword_id, k, now, now, true⟩]
        tweet_keywords := db.tweet_keywords ++ [⟨tweet_pk, db.next_keyword_id⟩]
        next_keyword_id := db.next_keyword_id + 1 }
  | some r =>
    { db with
        keywords := updFirst (fun q => q.text == k) (fun q => { q with last_used := now })
          db.keywords
        tweet_keywords := db.tweet_keywords ++ [⟨tweet_pk, r.id⟩] }

/-- `TweetStore._save_tweet_keywords`: the loop over the keyword labels. -/
def save_tweet_keywords (db : StoreDB) (tweet_pk : ℕ) (kws : List String) (now : ℤ) :
    StoreDB :=
  kws.foldl (save_one_keyword tweet_pk now) db

/-- The `user_data` dict literally built inside `save_tweet` (only
`user_id`, `username` and `display_name` keys are present). -/
def userDataOfTweet (td : TweetData) : UserData :=
  { user_id := td.user_id, username := td.username, display_name := td.full_name }

/-- Insert the new `Tweet` row; `session.flush()` materialises its primary
key, which the caller reads back. -/
def insertTweet (db : StoreDB) (td : TweetData) : ℕ × StoreDB :=
  let tid := db.next_tweet_id
  let row : TweetRow :=
    { id := tid
      tweet_id := td.tweet_id
      user_id := td.user_id
      content := td.content
      created_at := td.created_at
      retweet_count := (td.retweet_count).getD 0
      like_count := (td.like_count).getD 0
      reply_count := (td.reply_count).getD 0
      quote_count := (td.quote_count).getD 0
      lang := td.lang
      is_retweet := (td.is_retweet).getD false
      is_reply := (td.is_reply).getD false
      in_reply_to_tweet_id := td.in_reply_to_tweet_id
      in_reply_to_user_id := td.in_reply_to_user_id
      quoted_tweet_id := td.quoted_tweet_id
      json_data := td.json_data }
  (tid, { db with tweets := db.tweets ++ [row], next_tweet_id := tid + 1 })

/-- Truthiness of `"hashtags" in tweet_data and tweet_data["hashtags"]`. -/
def hashtagsPresent (td : TweetData) : Bool :=
  match td.hashtags with | some l => !l.isEmpty | none => false

/-- Truthiness of `"mentions" in tweet_data and tweet_data["mentions"]`. -/
def mentionsPresent (td : TweetData) : Bool :=
  match td.mentions with | some l => !l.isEmpty | none => false

/-- Truthiness of `"media" in tweet_data and tweet_data["media"]`. -/
def mediaPresent (td : TweetData) : Bool :=
  match td.media with | some l => !l.isEmpty | none => false

/-- Truthiness of `"keywords" in tweet_data and tweet_data["keywords"]`. -/
def keywordsPresent (td : TweetData) : Bool :=
  match td.keywords with | some l => !l.isEmpty | none => false

/-- The sub-steps of `save_tweet` at which the external store may raise
(the spec's steps 2-7); an exception anywhere in the `try` block is caught,
the session is rolled back, and `None` is returned. -/
inductive Step : Type
  | saveUser
  | insertTweetRow
  | hashtagsAssoc
  | mentionsAssoc
  | mediaAssoc
  | keywordsAssoc

/-- The guarded call `if "hashtags" in tweet_data and tweet_data["hashtags"]:
self._save_hashtags(...)`. -/
def stepHashtags (td : TweetData) (now : ℤ) (tid : ℕ) (s : StoreDB) : StoreDB :=
  if hashtagsPresent td then save_hashtags s tid ((td.hashtags).getD []) now else s

/-- The guarded call to `_save_mentions`. -/
def stepMentions (td : TweetData) (tid : ℕ) (s : StoreDB) : StoreDB :=
  if mentionsPresent td then save_mentions s tid ((td.mentions).getD []) td.created_at
  else s

/-- The guarded call to `_save_media`. -/
def stepMedia (td : TweetData) (tid : ℕ) (s : StoreDB) : StoreDB :=
  if mediaPresent td then save_media s tid ((td.media).getD []) else s

/-- The guarded call to `_save_tweet_keywords`. -/
def stepKeywords (td : TweetData) (now : ℤ) (tid : ℕ) (s : StoreDB) : StoreDB :=
  if keywordsPresent td then save_tweet_keywords s tid ((td.keywords).getD []) now
  else s

/-- `TweetStore.save_tweet`, with an error oracle `err` saying which
executed sub-step raises.  All mutations before `session.commit()` live in
the session only, so a raise at any point leaves the committed database
unchanged (`(none, db)`); a step that is not executed cannot raise. -/
def save_tweet (cfg : List TrackedAccount) (err : Step → Bool) (now : ℤ)
    (db : StoreDB) (td : TweetData) : Option ℕ × StoreDB :=
  match db.tweets.find? (fun t => t.tweet_id == td.tweet_id) with
  | some t => (some t.id, db)
  | none =>
    if err Step.saveUser then (none, db) else
    let s1 := (save_or_update_user cfg db (userDataOfTweet td)).2
    if err Step.insertTweetRow then (none, db) else
    let p := insertTweet s1 td
    if hashtagsPresent td && err Step.hashtagsAssoc then (none, db) else
    let s3 := stepHashtags td now p.1 p.2
    if mentionsPresent td && err Step.mentionsAssoc then (none, db) else
    let s4 := stepMentions td p.1 s3
    if mediaPresent td && err Step.mediaAssoc then (none, db) else
    let s5 := stepMedia td p.1 s4
    if keywordsPresent td && err Step.keywordsAssoc then (none, db) else
    (some p.1, stepKeywords td now p.1 s5)

/-- `TweetStore.save_tweets`: sequential application of `save_tweet`,
collecting the ids of the records that succeeded; `err n` is the error
oracle for the `n`-th record of the batch. -/
def save_tweets (cfg : List TrackedAccount) (err : ℕ → Step → Bool) (now : ℤ)
    (db : StoreDB) (tds : List TweetData) : List ℕ × StoreDB :=
  match tds with
  | [] => ([], db)
  | td :: rest =>
    let r := save_tweet cfg (err 0) now db td
    let rec2 := save_tweets cfg (fun n => err (n + 1)) now r.2 rest
    match r.1 with
    | some i => (i :: rec2.1, rec2.2)
    | none => (rec2.1, rec2.2)

/-- The error oracle of a run in which the external store raises nowhere. -/
def noErr : Step → Bool := fun _ => false

/-- The batch oracle of a run in which the external store raises nowhere. -/
def noErrB : ℕ → Step → Bool := fun _ _ => false

/-- The committed `usage_count` of the hashtag row whose text is `x`
(0 when no such row exists). -/
def usageCount (db : StoreDB) (x : String) : ℤ :=
  match db.hashtags.find? (fun h => h.text == x) with
  | some h => h.usage_count
  | none => 0

/-- The hashtag list of a raw record (empty when the key is absent). -/
def hashtagsOf (td : TweetData) : List String := (td.hashtags).getD []

/- ## Association-list and first-update lemmas -/

theorem alookup_overwriteVal_self {β : Type} (k : String) (v : β)
    (l : List (String × β)) :
    alookup k (overwriteVal k v l) = (alookup k l).map (fun _ => v) := by
  induction l with
  | nil => rfl
  | cons e l ih =>
    simp only [overwriteVal, List.map_cons] at *
    by_cases h : e.1 = k
    · simp [alookup, h]
    · simpa [alookup, h] using ih

theorem alookup_overwriteVal_ne {β : Type} (k k' : String) (v : β)
    (l : List (String × β)) (h : k' ≠ k) :
    alookup k' (overwriteVal k v l) = alookup k' l := by
  induction l with
  | nil => rfl
  | cons e l ih =>
    simp only [overwriteVal, List.map_cons] at *
    by_cases he : e.1 = k
    · subst he
      simp [alookup, Ne.symm h, ih]
    · by_cases he' : e.1 = k' <;> simp [alookup, he, he', h, ih]

theorem alookup_isSome_iff_mem {β : Type} (k : String) (l : List (String × β)) :
    (alookup k l).isSome = true ↔ k ∈ l.map Prod.fst := by
  induction l with
  | nil => simp [alookup]
  | cons e l ih =>
    by_cases h : e.1 = k
    · simp [alookup, h]
    · simp [alookup, h, ih, Ne.symm h]

/- ## Scheduler lemmas and claims -/

theorem update_db_status_frame (s : SchedulerState) (k : String) (b : Bool)
    (now : ℤ) :
    (update_db_status s k b now).normal_intervals = s.normal_intervals ∧
    (update_db_status s k b now).critical_intervals = s.critical_intervals ∧
    (update_db_status s k b now).current_status = s.current_status ∧
    (update_db_status s k b now).default_normal_interval = s.default_normal_interval ∧
    (update_db_status s k b now).default_critical_interval = s.default_critical_interval := by
  unfold update_db_status
  split
  · exact ⟨rfl, rfl, rfl, rfl, rfl⟩
  · split
    · exact ⟨rfl, rfl, rfl, rfl, rfl⟩
    · exact ⟨rfl, rfl, rfl, rfl, rfl⟩

theorem set_critical_status_spec (s : SchedulerState) (k : String) (b : Bool)
    (now : ℤ) :
    (set_critical_status s k b now).normal_intervals = s.normal_intervals ∧
    (set_critical_status s k b now).critical_intervals = s.critical_intervals ∧
    (set_critical_status s k b now).default_normal_interval = s.default_normal_interval ∧
    (set_critical_status s k b now).default_critical_interval = s.default_critical_interval ∧
    ∀ k', alookup k' (set_critical_status s k b now).current_status =
      if k' = k then
        (alookup k s.current_status).map
          (fun _ => if b then Status.critical else Status.normal)
      else alookup k' s.current_status := by
  unfold set_critical_status
  cases hcs : alookup k s.current_status with
  | none =>
    refine ⟨rfl, rfl, rfl, rfl, ?_⟩
    intro k'
    by_cases h : k' = k <;> simp [h, hcs]
  | some st =>
    obtain ⟨h1, h2, h3, h4, h5⟩ := update_db_status_frame
      { s with current_status := overwriteVal k (if b then Status.critical else Status.normal) s.current_status } k b now
    refine ⟨h1, h2, h4, h5, ?_⟩
    intro k'
    rw [h3]
    by_cases h : k' = k
    · subst h
      simp [alookup_overwriteVal_self, hcs]
    · simp [alookup_overwriteVal_ne _ _ _ _ h, h]

theorem escalate_foldl_spec (now : ℤ) (L : List String) :
    ∀ s : SchedulerState,
      ((L.foldl (fun st k => set_critical_status st k true now) s).normal_intervals
        = s.normal_intervals) ∧
      ((L.foldl (fun st k => set_critical_status st k true now) s).critical_intervals
        = s.critical_intervals) ∧
      ((L.foldl (fun st k => set_critical_status st k true now) s).default_normal_interval
        = s.default_normal_interval) ∧
      ((L.foldl (fun st k => set_critical_status st k true now) s).default_critical_interval
        = s.default_critical_interval) ∧
      ∀ k, alookup k
          (L.foldl (fun st k => set_critical_status st k true now) s).current_status =
        if k ∈ L then (alookup k s.current_status).map (fun _ => Status.critical)
        else alookup k s.current_status := by
  induction L with
  | nil =>
    intro s
    refine ⟨rfl, rfl, rfl, rfl, ?_⟩
    intro k; simp
  | cons a L ih =>
    intro s
    obtain ⟨g1, g2, g3, g4, g5⟩ := set_critical_status_spec s a true now
    obtain ⟨f1, f2, f3, f4, f5⟩ := ih (set_critical_status s a true now)
    simp only [List.foldl_cons]
    refine ⟨f1.trans g1, f2.trans g2, f3.trans g3, f4.trans g4, ?_⟩
    intro k
    rw [f5 k, g5 k]
    by_cases hk : k = a
    · subst hk
      by_cases hL : k ∈ L <;>
        cases hcs : alookup k s.current_status <;>
          simp [hL, hcs]
    · by_cases hL : k ∈ L <;> simp [hk, hL]

/-- C5: `manager_tweeted` forces every known topic to critical status,
whatever its previous status; afterwards `get_interval` of every known
topic yields its critical interval. -/
theorem manager_tweeted_escalates_all (s : SchedulerState) (now : ℤ) (k : String)
    (hk : (alookup k s.current_status).isSome = true) :
    alookup k (manager_tweeted s now).current_status = some Status.critical ∧
    get_interval (manager_tweeted s now) k =
      (alookup k s.critical_intervals).getD s.default_critical_interval := by
  obtain ⟨f1, f2, f3, f4, f5⟩ :=
    escalate_foldl_spec now (s.current_status.map Prod.fst) s
  have hmem : k ∈ s.current_status.map Prod.fst :=
    (alookup_isSome_iff_mem k s.current_status).mp hk
  obtain ⟨st, hst⟩ := Option.isSome_iff_exists.mp hk
  have hstat : alookup k (manager_tweeted s now).current_status = some Status.critical := by
    unfold manager_tweeted
    rw [f5 k, if_pos hmem, hst]
    rfl
  refine ⟨hstat, ?_⟩
  unfold get_interval
  rw [hstat]
  simp only [reduceIte]
  unfold manager_tweeted
  rw [f2, f4]

/-- C5 witness: the scheduler of the specification's example, with topics
A normal, B critical, C normal; after the broadcast, topic A is critical
and polls at its critical interval. -/
theorem manager_tweeted_escalates_all_witness :
    (alookup ("A")
      (manager_tweeted
        ⟨[(("A"), 1200), (("B"), 1100), (("C"), 1000)],
         [(("A"), 300), (("B"), 290), (("C"), 280)],
         [(("A"), Status.normal), (("B"), Status.critical), (("C"), Status.normal)],
         1200, 300, [], []⟩ 17).current_status = some Status.critical) ∧
    get_interval
      (manager_tweeted
        ⟨[(("A"), 1200), (("B"), 1100), (("C"), 1000)],
         [(("A"), 300), (("B"), 290), (("C"), 280)],
         [(("A"), Status.normal), (("B"), Status.critical), (("C"), Status.normal)],
         1200, 300, [], []⟩ 17) ("A") = 300 :=
  manager_tweeted_escalates_all
    ⟨[(("A"), 1200), (("B"), 1100), (("C"), 1000)],
     [(("A"), 300), (("B"), 290), (("C"), 280)],
     [(("A"), Status.normal), (("B"), Status.critical), (("C"), Status.normal)],
     1200, 300, [], []⟩ 17 ("A") (by decide)

/-- C9: escalating or de-escalating a topic the scheduler does not know is
a complete no-op: the whole state, in-memory maps and database tables
alike, is returned unchanged and no write happens. -/
theorem set_critical_status_unknown_noop (s : SchedulerState) (k : String)
    (b : Bool) (now : ℤ) (h : alookup k s.current_status = none) :
    set_critical_status s k b now = s := by
  unfold set_critical_status
  rw [h]

/-- C9 witness: toggling the unknown topic Z on a scheduler that only
knows A leaves the scheduler exactly as it was. -/
theorem set_critical_status_unknown_noop_witness :
    set_critical_status
      ⟨[(("A"), 1200)], [(("A"), 300)], [(("A"), Status.normal)], 1200, 300,
       [⟨1, ("A")⟩], []⟩ ("Z") true 5 =
    ⟨[(("A"), 1200)], [(("A"), 300)], [(("A"), Status.normal)], 1200, 300,
     [⟨1, ("A")⟩], []⟩ :=
  set_critical_status_unknown_noop
    ⟨[(("A"), 1200)], [(("A"), 300)], [(("A"), Status.normal)], 1200, 300,
     [⟨1, ("A")⟩], []⟩ ("Z") true 5 (by decide)

/-- C8: the spec-modelled due check `isDue(topic, now)` is true exactly when
the topic's last-checked stamp is unset or `now - lastCheckedAt` has reached
the interval for its current status, and the source's `get_interval` yields
the topic's critical interval when its status is critical and its normal
interval otherwise. -/
theorem isDue_spec (s : SchedulerState) (k : String) (st : Status) (ni ci : ℤ)
    (h1 : alookup k s.current_status = some st)
    (h2 : alookup k s.normal_intervals = some ni)
    (h3 : alookup k s.critical_intervals = some ci) :
    (∀ lc now, isDue s k lc now = true ↔
      lc = none ∨ ∃ t, lc = some t ∧ get_interval s k ≤ now - t) ∧
    get_interval s k = if st = Status.critical then ci else ni := by
  constructor
  · intro lc now
    cases lc with
    | none => simp [isDue]
    | some t => simp [isDue]
  · unfold get_interval
    rw [h1]
    by_cases hst : st = Status.critical <;> simp [hst, h2, h3]

/-- C8 witness: a one-topic scheduler in critical status with a stale
last-checked stamp is due, and its interval is the critical one. -/
theorem isDue_spec_witness :
    (isDue ⟨[(("A"), 1200)], [(("A"), 300)], [(("A"), Status.critical)],
       1200, 300, [], []⟩ ("A") (some 0) 400 = true ↔
      ((some 0 : Option ℤ) = none ∨ ∃ t, (some 0 : Option ℤ) = some t ∧
        get_interval ⟨[(("A"), 1200)], [(("A"), 300)], [(("A"), Status.critical)],
          1200, 300, [], []⟩ ("A") ≤ 400 - t)) ∧
    get_interval ⟨[(("A"), 1200)], [(("A"), 300)], [(("A"), Status.critical)],
      1200, 300, [], []⟩ ("A") = 300 := by
  have h := isDue_spec
    ⟨[(("A"), 1200)], [(("A"), 300)], [(("A"), Status.critical)], 1200, 300, [], []⟩
    ("A") Status.critical 1200 300 (by decide) (by decide) (by decide)
  exact ⟨h.1 (some 0) 400, h.2⟩

/-- C4: the interval derived from importance is `int(base * (0.5 +
(1 - importance/10) * 0.5))`; importance 10 halves the base, importance 0
keeps it whole, and higher importance never yields a longer interval, for
any nonnegative base (in particular both the normal and critical bases). -/
theorem calculate_interval_spec (b i1 i2 : ℤ) (hb : 0 ≤ b) (h2 : 0 ≤ i2)
    (h12 : i2 < i1) (h1 : i1 ≤ 10) :
    calculate_interval i1 b ≤ calculate_interval i2 b ∧
    calculate_interval 10 b = b / 2 ∧
    calculate_interval 0 b = b := by
  have hbq : (0 : ℚ) ≤ (b : ℚ) := by exact_mod_cast hb
  have key : ∀ i : ℤ, 0 ≤ i → i ≤ 10 →
      calculate_interval i b
        = ⌊(b : ℚ) * (1 / 2 + (1 - (i : ℚ) / 10) * (1 / 2))⌋ := by
    intro i hi0 hi10
    have hiq : (i : ℚ) ≤ 10 := by exact_mod_cast hi10
    have hfac : (0 : ℚ) ≤ 1 - (i : ℚ) / 10 := by linarith
    have hinner : (0 : ℚ) ≤ 1 / 2 + (1 - (i : ℚ) / 10) * (1 / 2) := by nlinarith
    unfold calculate_interval pyInt
    rw [if_pos (mul_nonneg hbq hinner)]
  refine ⟨?_, ?_, ?_⟩
  · rw [key i1 (le_of_lt (lt_of_le_of_lt h2 h12)) h1,
      key i2 h2 (le_of_lt (lt_of_lt_of_le h12 h1))]
    apply Int.floor_le_floor
    have hle : (i2 : ℚ) ≤ (i1 : ℚ) := by exact_mod_cast le_of_lt h12
    have : 1 / 2 + (1 - (i1 : ℚ) / 10) * (1 / 2)
        ≤ 1 / 2 + (1 - (i2 : ℚ) / 10) * (1 / 2) := by linarith
    exact mul_le_mul_of_nonneg_left this hbq
  · rw [key 10 (by norm_num) le_rfl]
    have : (b : ℚ) * (1 / 2 + (1 - (10 : ℤ) / 10) * (1 / 2))
        = (b : ℚ) / ((2 : ℕ) : ℚ) := by push_cast; ring
    rw [this, Rat.floor_intCast_div_natCast]
    norm_num
  · rw [key 0 le_rfl (by norm_num)]
    have : (b : ℚ) * (1 / 2 + (1 - (0 : ℤ) / 10) * (1 / 2)) = (b : ℚ) := by
      push_cast; ring
    rw [this, Int.floor_intCast]

/-- C4 witness: with the default normal base 1200, importance 10 polls
every 600 seconds and importance 0 every 1200, and the former is no longer
than the latter. -/
theorem calculate_interval_spec_witness :
    calculate_interval 10 1200 ≤ calculate_interval 0 1200 ∧
    calculate_interval 10 1200 = 1200 / 2 ∧
    calculate_interval 0 1200 = 1200 :=
  calculate_interval_spec 1200 10 0 (by norm_num) le_rfl (by norm_num) le_rfl

/- ## find? and updFirst lemmas -/

theorem find?_append_of_none {α : Type} (p : α → Bool) (l1 l2 : List α)
    (h : l1.find? p = none) : (l1 ++ l2).find? p = l2.find? p := by
  induction l1 with
  | nil => rfl
  | cons a l ih =>
    cases hpa : p a with
    | true => simp [List.find?, hpa] at h
    | false =>
      simp only [List.find?, hpa] at h
      simpa [List.find?, hpa] using ih h

theorem find?_append_of_some {α : Type} (p : α → Bool) (l1 l2 : List α) (x : α)
    (h : l1.find? p = some x) : (l1 ++ l2).find? p = some x := by
  induction l1 with
  | nil => simp [List.find?] at h
  | cons a l ih =>
    cases hpa : p a with
    | true => simp_all [List.find?, hpa]
    | false =>
      simp only [List.find?, hpa] at h
      simpa [List.find?, hpa] using ih h

theorem find?_updFirst_self {α : Type} (p : α → Bool) (f : α → α) (l : List α)
    (hp : ∀ a, p (f a) = p a) :
    (updFirst p f l).find? p = (l.find? p).map f := by
  induction l with
  | nil => rfl
  | cons a l ih =>
    cases hpa : p a with
    | true => simp [updFirst, List.find?, hpa, hp a]
    | false => simp [updFirst, List.find?, hpa, ih]

theorem find?_updFirst_of_disjoint {α : Type} (p q : α → Bool) (f : α → α)
    (l : List α) (hpq : ∀ a, p a = true → q a = false)
    (hqf : ∀ a, q (f a) = q a) :
    (updFirst p f l).find? q = l.find? q := by
  induction l with
  | nil => rfl
  | cons a l ih =>
    cases hpa : p a with
    | true =>
      have hqa := hpq a hpa
      simp [updFirst, List.find?, hpa, hqf a, hqa]
    | false =>
      cases hqa : q a with
      | true => simp [updFirst, List.find?, hpa, hqa]
      | false => simp [updFirst, List.find?, hpa, hqa, ih]

/- ## Frame lemmas for the ingestion helpers -/

theorem save_or_update_user_frame (cfg : List TrackedAccount) (db : StoreDB)
    (ud : UserData) :
    (save_or_update_user cfg db ud).2.tweets = db.tweets ∧
    (save_or_update_user cfg db ud).2.hashtags = db.hashtags ∧
    (save_or_update_user cfg db ud).2.next_tweet_id = db.next_tweet_id := by
  unfold save_or_update_user
  split
  · exact ⟨rfl, rfl, rfl⟩
  · exact ⟨rfl, rfl, rfl⟩

theorem save_one_hashtag_frame (tid : ℕ) (now : ℤ) (db : StoreDB) (tag : String) :
    (save_one_hashtag tid now db tag).tweets = db.tweets ∧
    (save_one_hashtag tid now db tag).users = db.users := by
  unfold save_one_hashtag
  split
  · exact ⟨rfl, rfl⟩
  · exact ⟨rfl, rfl⟩

theorem save_hashtags_frame (tid : ℕ) (now : ℤ) (tags : List String) :
    ∀ db : StoreDB,
      (save_hashtags db tid tags now).tweets = db.tweets ∧
      (save_hashtags db tid tags now).users = db.users := by
  induction tags with
  | nil => intro db; exact ⟨rfl, rfl⟩
  | cons tag rest ih =>
    intro db
    have hone := save_one_hashtag_frame tid now db tag
    have hrec := ih (save_one_hashtag tid now db tag)
    exact ⟨hrec.1.trans hone.1, hrec.2.trans hone.2⟩

theorem save_one_mention_frame (tid : ℕ) (d : ℤ) (db : StoreDB) (mtn : String) :
    (save_one_mention tid d db mtn).tweets = db.tweets ∧
    (save_one_mention tid d db mtn).hashtags = db.hashtags ∧
    ∃ ext, (save_one_mention tid d db mtn).users = db.users ++ ext := by
  unfold save_one_mention
  split
  · exact ⟨rfl, rfl, [], (List.append_nil _).symm⟩
  · exact ⟨rfl, rfl, [_], rfl⟩

theorem save_mentions_frame (tid : ℕ) (d : ℤ) (ms : List String) :
    ∀ db : StoreDB,
      (save_mentions db tid ms d).tweets = db.tweets ∧
      (save_mentions db tid ms d).hashtags = db.hashtags ∧
      ∃ ext, (save_mentions db tid ms d).users = db.users ++ ext := by
  induction ms with
  | nil => intro db; exact ⟨rfl, rfl, [], (List.append_nil _).symm⟩
  | cons mtn rest ih =>
    intro db
    obtain ⟨o1, o2, ext1, o3⟩ := save_one_mention_frame tid d db mtn
    obtain ⟨r1, r2, ext2, r3⟩ := ih (save_one_mention tid d db mtn)
    refine ⟨r1.trans o1, r2.trans o2, ext1 ++ ext2, ?_⟩
    have hstep : save_mentions db tid (mtn :: rest) d
        = save_mentions (save_one_mention tid d db mtn) tid rest d := rfl
    rw [hstep, r3, o3, List.append_assoc]

theorem save_media_frame (tid : ℕ) (items : List MediaData) :
    ∀ db : StoreDB,
      (save_media db tid items).tweets = db.tweets ∧
      (save_media db tid items).users = db.users ∧
      (save_media db tid items).hashtags = db.hashtags := by
  induction items with
  | nil => intro db; exact ⟨rfl, rfl, rfl⟩
  | cons it rest ih => intro db; exact ih _

theorem save_one_keyword_frame (tid : ℕ) (now : ℤ) (db : StoreDB) (k : String) :
    (save_one_keyword tid now db k).tweets = db.tweets ∧
    (save_one_keyword tid now db k).users = db.users ∧
    (save_one_keyword tid now db k).hashtags = db.hashtags := by
  unfold save_one_keyword
  split
  · exact ⟨rfl, rfl, rfl⟩
  · exact ⟨rfl, rfl, rfl⟩

theorem save_tweet_keywords_frame (tid : ℕ) (now : ℤ) (kws : List String) :
    ∀ db : StoreDB,
      (save_tweet_keywords db tid kws now).tweets = db.tweets ∧
      (save_tweet_keywords db tid kws now).users = db.users ∧
      (save_tweet_keywords db tid kws now).hashtags = db.hashtags := by
  induction kws with
  | nil => intro db; exact ⟨rfl, rfl, rfl⟩
  | cons k rest ih =>
    intro db
    obtain ⟨o1, o2, o3⟩ := save_one_keyword_frame tid now db k
    obtain ⟨r1, r2, r3⟩ := ih (save_one_keyword tid now db k)
    exact ⟨r1.trans o1, r2.trans o2, r3.trans o3⟩

theorem stepHashtags_frame (td : TweetData) (now : ℤ) (tid : ℕ) (s : StoreDB) :
    (stepHashtags td now tid s).tweets = s.tweets ∧
    (stepHashtags td now tid s).users = s.users := by
  unfold stepHashtags
  split
  · exact save_hashtags_frame tid now _ s
  · exact ⟨rfl, rfl⟩

theorem stepMentions_frame (td : TweetData) (tid : ℕ) (s : StoreDB) :
    (stepMentions td tid s).tweets = s.tweets ∧
    (stepMentions td tid s).hashtags = s.hashtags ∧
    ∃ ext, (stepMentions td tid s).users = s.users ++ ext := by
  unfold stepMentions
  split
  · exact save_mentions_frame tid td.created_at _ s
  · exact ⟨rfl, rfl, [], by simp⟩

theorem stepMedia_frame (td : TweetData) (tid : ℕ) (s : StoreDB) :
    (stepMedia td tid s).tweets = s.tweets ∧
    (stepMedia td tid s).users = s.users ∧
    (stepMedia td tid s).hashtags = s.hashtags := by
  unfold stepMedia
  split
  · exact save_media_frame tid _ s
  · exact ⟨rfl, rfl, rfl⟩

theorem stepKeywords_frame (td : TweetData) (now : ℤ) (tid : ℕ) (s : StoreDB) :
    (stepKeywords td now tid s).tweets = s.tweets ∧
    (stepKeywords td now tid s).users = s.users ∧
    (stepKeywords td now tid s).hashtags = s.hashtags := by
  unfold stepKeywords
  split
  · exact save_tweet_keywords_frame tid now _ s
  · exact ⟨rfl, rfl, rfl⟩

theorem insertTweet_spec (db : StoreDB) (td : TweetData) :
    ∃ row : TweetRow,
      (insertTweet db td).2.tweets = db.tweets ++ [row] ∧
      row.tweet_id = td.tweet_id ∧
      row.id = (insertTweet db td).1 ∧
      (insertTweet db td).2.users = db.users ∧
      (insertTweet db td).2.hashtags = db.hashtags :=
  ⟨_, rfl, rfl, rfl, rfl, rfl⟩

/-- Dichotomy of `save_tweet` on a fresh external id: either some executed
step raised and the call returns `(none, db)` (full rollback), or the call
succeeded and the only change to the `tweets` table is one appended row
carrying the record's external id. -/
theorem save_tweet_shape (cfg : List TrackedAccount) (err : Step → Bool) (now : ℤ)
    (db : StoreDB) (td : TweetData)
    (hfind : db.tweets.find? (fun t => t.tweet_id == td.tweet_id) = none) :
    save_tweet cfg err now db td = (none, db) ∨
    ∃ row : TweetRow, (save_tweet cfg err now db td).1 = some row.id ∧
      row.tweet_id = td.tweet_id ∧
      (save_tweet cfg err now db td).2.tweets = db.tweets ++ [row] := by
  by_cases e1 : err Step.saveUser = true
  · left; simp [save_tweet, hfind, e1]
  · by_cases e2 : err Step.insertTweetRow = true
    · left; simp [save_tweet, hfind, e1, e2]
    · by_cases e3 : (hashtagsPresent td && err Step.hashtagsAssoc) = true
      · left; simp [save_tweet, hfind, e1, e2, e3]
      · by_cases e4 : (mentionsPresent td && err Step.mentionsAssoc) = true
        · left; simp [save_tweet, hfind, e1, e2, e3, e4]
        · by_cases e5 : (mediaPresent td && err Step.mediaAssoc) = true
          · left; simp [save_tweet, hfind, e1, e2, e3, e4, e5]
          · by_cases e6 : (keywordsPresent td && err Step.keywordsAssoc) = true
            · left; simp [save_tweet, hfind, e1, e2, e3, e4, e5, e6]
            · right
              obtain ⟨row, htw, hrtid, hrid, _, _⟩ :=
                insertTweet_spec (save_or_update_user cfg db (userDataOfTweet td)).2 td
              refine ⟨row, ?_, hrtid, ?_⟩
              · simp [save_tweet, hfind, e1, e2, e3, e4, e5, e6, hrid]
              · have hc4 := (stepKeywords_frame td now
                  (insertTweet (save_or_update_user cfg db (userDataOfTweet td)).2 td).1
                  (stepMedia td
                    (insertTweet (save_or_update_user cfg db (userDataOfTweet td)).2 td).1
                    (stepMentions td
                      (insertTweet (save_or_update_user cfg db (userDataOfTweet td)).2 td).1
                      (stepHashtags td now
                        (insertTweet (save_or_update_user cfg db (userDataOfTweet td)).2 td).1
                        (insertTweet (save_or_update_user cfg db (userDataOfTweet td)).2 td).2)))).1
                have hc3 := (stepMedia_frame td
                  (insertTweet (save_or_update_user cfg db (userDataOfTweet td)).2 td).1
                  (stepMentions td
                    (insertTweet (save_or_update_user cfg db (userDataOfTweet td)).2 td).1
                    (stepHashtags td now
                      (insertTweet (save_or_update_user cfg db (userDataOfTweet td)).2 td).1
                      (insertTweet (save_or_update_user cfg db (userDataOfTweet td)).2 td).2))).1
                have hc2 := (stepMentions_frame td
                  (insertTweet (save_or_update_user cfg db (userDataOfTweet td)).2 td).1
                  (stepHashtags td now
                    (insertTweet (save_or_update_user cfg db (userDataOfTweet td)).2 td).1
                    (insertTweet (save_or_update_user cfg db (userDataOfTweet td)).2 td).2)).1
                have hc1 := (stepHashtags_frame td now
                  (insertTweet (save_or_update_user cfg db (userDataOfTweet td)).2 td).1
                  (insertTweet (save_or_update_user cfg db (userDataOfTweet td)).2 td).2).1
                have hu := (save_or_update_user_frame cfg db (userDataOfTweet td)).1
                simp [save_tweet, hfind, e1, e2, e3, e4, e5, e6]
                rw [hc4, hc3, hc2, hc1, htw, hu]

/-- On failure the committed database is unchanged. -/
theorem save_tweet_fail_frame (cfg : List TrackedAccount) (err : Step → Bool)
    (now : ℤ) (db : StoreDB) (td : TweetData)
    (h : (save_tweet cfg err now db td).1 = none) :
    (save_tweet cfg err now db td).2 = db := by
  cases hfind : db.tweets.find? (fun t => t.tweet_id == td.tweet_id) with
  | some t =>
    have he : save_tweet cfg err now db td = (some t.id, db) := by
      simp [save_tweet, hfind]
    rw [he] at h
    simp at h
  | none =>
    rcases save_tweet_shape cfg err now db td hfind with hL | ⟨row, h1, _, _⟩
    · rw [hL]
    · rw [h] at h1
      simp at h1

/-- A failing head record leaves the batch exactly as the batch of the
remaining records. -/
theorem save_tweets_cons_fail (cfg : List TrackedAccount) (errB : ℕ → Step → Bool)
    (now : ℤ) (db : StoreDB) (td : TweetData) (rest : List TweetData)
    (hfail : (save_tweet cfg (errB 0) now db td).1 = none) :
    save_tweets cfg errB now db (td :: rest)
      = save_tweets cfg (fun n => errB (n + 1)) now db rest := by
  have hdb := save_tweet_fail_frame cfg (errB 0) now db td hfail
  simp only [save_tweets]
  rw [hfail, hdb]

/-- C1: re-submitting an already-present record returns the existing
internal id and changes nothing; in particular running `save_tweet` twice
on the same record is observably the single run -- the second call returns
the same id and leaves the whole database untouched. -/
theorem save_tweet_idempotent (cfg : List TrackedAccount) (err err2 : Step → Bool)
    (now now2 : ℤ) (db : StoreDB) (td : TweetData) :
    (∀ t0, db.tweets.find? (fun t => t.tweet_id == td.tweet_id) = some t0 →
      save_tweet cfg err now db td = (some t0.id, db)) ∧
    (∀ i db1, save_tweet cfg err now db td = (some i, db1) →
      save_tweet cfg err2 now2 db1 td = (some i, db1)) := by
  constructor
  · intro t0 h
    simp [save_tweet, h]
  · intro i db1 hres
    cases hfind : db.tweets.find? (fun t => t.tweet_id == td.tweet_id) with
    | some t =>
      have he : save_tweet cfg err now db td = (some t.id, db) := by
        simp [save_tweet, hfind]
      rw [he] at hres
      rw [Prod.mk.injEq] at hres
      obtain ⟨hi, hdb⟩ := hres
      injection hi with hi
      subst hdb
      simp [save_tweet, hfind, hi]
    | none =>
      rcases save_tweet_shape cfg err now db td hfind with hL | ⟨row, h1, h2, h3⟩
      · rw [hL] at hres
        exact absurd (congrArg Prod.fst hres) (by simp)
      · rw [hres] at h1 h3
        simp only at h1 h3
        have hfind1 : db1.tweets.find? (fun t => t.tweet_id == td.tweet_id) = some row := by
          rw [h3, find?_append_of_none _ _ _ hfind]
          simp [List.find?, h2]
        have he : save_tweet cfg err2 now2 db1 td = (some row.id, db1) := by
          simp [save_tweet, hfind1]
        rw [he]
        injection h1 with h1
        rw [h1]

/-- C1 witness: a store already holding the record with external id t1
returns the stored internal id 7 and the unchanged store, twice over. -/
theorem save_tweet_idempotent_witness :
    save_tweet [] noErr 0
      ⟨[⟨7, ("t1"), ("u1"), ("hello"), 0, 0, 0, 0, 0, none, false, false,
         none, none, none, none⟩],
       [], [], [], [], [], [], [], 8, 1, 1⟩
      ⟨("t1"), ("u1"), ("bob"), ("Bob"), ("hello"), 0, none, none, none, none,
       none, none, none, none, none, none, none, none, none, none, none⟩
      = (some 7,
        ⟨[⟨7, ("t1"), ("u1"), ("hello"), 0, 0, 0, 0, 0, none, false, false,
           none, none, none, none⟩],
         [], [], [], [], [], [], [], 8, 1, 1⟩) :=
  (save_tweet_idempotent [] noErr noErr 0 0
      ⟨[⟨7, ("t1"), ("u1"), ("hello"), 0, 0, 0, 0, 0, none, false, false,
         none, none, none, none⟩],
       [], [], [], [], [], [], [], 8, 1, 1⟩
      ⟨("t1"), ("u1"), ("bob"), ("Bob"), ("hello"), 0, none, none, none, none,
       none, none, none, none, none, none, none, none, none, none, none⟩).1
    ⟨7, ("t1"), ("u1"), ("hello"), 0, 0, 0, 0, 0, none, false, false,
     none, none, none, none⟩ (by decide)

/-- C3: a record whose ingestion fails after the duplicate check is rolled
back wholesale (the committed database is exactly the one before the call,
so no partial entities -- in particular no authorless post -- remain) and
the call reports failure; the batch form applies the single form
sequentially, and a failing record neither aborts the remaining records
nor rolls back records committed earlier. -/
theorem ingestion_rollback_and_batch (cfg : List TrackedAccount) (now : ℤ)
    (db : StoreDB) (td : TweetData) :
    (∀ err, (save_tweet cfg err now db td).1 = none →
      (save_tweet cfg err now db td).2 = db) ∧
    (∀ err, db.tweets.find? (fun t => t.tweet_id == td.tweet_id) = none →
      err Step.saveUser = true → save_tweet cfg err now db td = (none, db)) ∧
    (∀ errB rest, (save_tweet cfg (errB 0) now db td).1 = none →
      save_tweets cfg errB now db (td :: rest)
        = save_tweets cfg (fun n => errB (n + 1)) now db rest) := by
  refine ⟨?_, ?_, ?_⟩
  · intro err h
    exact save_tweet_fail_frame cfg err now db td h
  · intro err hfind herr
    simp [save_tweet, hfind, herr]
  · intro errB rest hfail
    exact save_tweets_cons_fail cfg errB now db td rest hfail

/-- C3 witness: on an empty store, a record whose author upsert raises is
rolled back (`(none, empty)`), and as head of a two-record batch it does
not prevent the second record from being processed. -/
theorem ingestion_rollback_and_batch_witness :
    save_tweet [] (fun _ => true) 0 ⟨[], [], [], [], [], [], [], [], 1, 1, 1⟩
      ⟨("t1"), ("u1"), ("bob"), ("Bob"), ("hello"), 0, none, none, none, none,
       none, none, none, none, none, none, none, none, none, none, none⟩
      = (none, ⟨[], [], [], [], [], [], [], [], 1, 1, 1⟩) ∧
    save_tweets [] (fun n _ => n == 0) 0 ⟨[], [], [], [], [], [], [], [], 1, 1, 1⟩
      [⟨("t1"), ("u1"), ("bob"), ("Bob"), ("hello"), 0, none, none, none, none,
        none, none, none, none, none, none, none, none, none, none, none⟩,
       ⟨("t2"), ("u2"), ("eve"), ("Eve"), ("hi"), 0, none, none, none, none,
        none, none, none, none, none, none, none, none, none, none, none⟩]
      = save_tweets [] (fun _ _ => false) 0 ⟨[], [], [], [], [], [], [], [], 1, 1, 1⟩
        [⟨("t2"), ("u2"), ("eve"), ("Eve"), ("hi"), 0, none, none, none, none,
          none, none, none, none, none, none, none, none, none, none, none⟩] := by
  constructor
  · exact (ingestion_rollback_and_batch [] 0 ⟨[], [], [], [], [], [], [], [], 1, 1, 1⟩
      ⟨("t1"), ("u1"), ("bob"), ("Bob"), ("hello"), 0, none, none, none, none,
       none, none, none, none, none, none, none, none, none, none, none⟩).2.1
      (fun _ => true) (by decide) rfl
  · have h := (ingestion_rollback_and_batch [] 0 ⟨[], [], [], [], [], [], [], [], 1, 1, 1⟩
      ⟨("t1"), ("u1"), ("bob"), ("Bob"), ("hello"), 0, none, none, none, none,
       none, none, none, none, none, none, none, none, none, none, none⟩).2.2
      (fun n _ => n == 0)
      [⟨("t2"), ("u2"), ("eve"), ("Eve"), ("hi"), 0, none, none, none, none,
        none, none, none, none, none, none, none, none, none, none, none⟩]
      (by decide)
    exact h.trans (by rfl)

/- ## Hashtag usage counting (claim C7) -/

theorem usage_congr (s t : StoreDB) (x : String) (h : s.hashtags = t.hashtags) :
    usageCount s x = usageCount t x := by
  unfold usageCount
  rw [h]

theorem save_one_hashtag_usage (tid : ℕ) (now : ℤ) (db : StoreDB) (tag x : String) :
    usageCount (save_one_hashtag tid now db tag) x
      = usageCount db x + (if normalizeTag tag == x then 1 else 0) := by
  by_cases hx : normalizeTag tag = x
  · subst hx
    unfold save_one_hashtag usageCount
    cases hfind : db.hashtags.find? (fun h => h.text == normalizeTag tag) with
    | some h0 =>
      simp only [hfind]
      rw [find?_updFirst_self (fun h => h.text == normalizeTag tag)
        (fun h : HashtagRow =>
          { h with last_seen := now, usage_count := h.usage_count + 1 })
        db.hashtags (fun a => rfl), hfind]
      simp
    | none =>
      simp only [hfind]
      rw [find?_append_of_none _ _ _ hfind]
      simp [List.find?]
  · have hbx : (normalizeTag tag == x) = false := beq_eq_false_iff_ne.mpr hx
    unfold save_one_hashtag usageCount
    cases hfind : db.hashtags.find? (fun h => h.text == normalizeTag tag) with
    | some h0 =>
      simp only [hfind]
      rw [find?_updFirst_of_disjoint (fun h => h.text == normalizeTag tag)
        (fun h => h.text == x)
        (fun h : HashtagRow =>
          { h with last_seen := now, usage_count := h.usage_count + 1 })
        db.hashtags
        (fun a ha => by
          have hat : a.text = normalizeTag tag := by simpa using ha
          simp [hat, hbx])
        (fun a => rfl)]
      simp [hbx]
    | none =>
      simp only [hfind]
      cases hfx : db.hashtags.find? (fun h => h.text == x) with
      | some hrow =>
        rw [find?_append_of_some _ _ _ _ hfx]
        simp [hbx, hfx]
      | none =>
        rw [find?_append_of_none _ _ _ hfx]
        simp [List.find?, hbx, hfx]

theorem save_hashtags_usage (tid : ℕ) (now : ℤ) (x : String) (tags : List String) :
    ∀ db : StoreDB,
      usageCount (save_hashtags db tid tags now) x
        = usageCount db x + ((tags.countP (fun t => normalizeTag t == x) : ℕ) : ℤ) := by
  induction tags with
  | nil => intro db; simp [save_hashtags]
  | cons a as ih =>
    intro db
    have hstep : save_hashtags db tid (a :: as) now
        = save_hashtags (save_one_hashtag tid now db a) tid as now := rfl
    rw [hstep, ih (save_one_hashtag tid now db a), save_one_hashtag_usage,
      List.countP_cons]
    by_cases hc : (normalizeTag a == x) = true
    · simp [hc]
      ring
    · simp [hc]

theorem stepHashtags_usage (td : TweetData) (now : ℤ) (tid : ℕ) (s : StoreDB)
    (x : String) :
    usageCount (stepHashtags td now tid s) x
      = usageCount s x
        + (((hashtagsOf td).countP (fun t => normalizeTag t == x) : ℕ) : ℤ) := by
  unfold stepHashtags hashtagsPresent hashtagsOf
  cases htd : td.hashtags with
  | none => simp
  | some l =>
    cases l with
    | nil => simp
    | cons a as => simpa using save_hashtags_usage tid now x (a :: as) s

theorem post_steps_usage (td : TweetData) (now : ℤ) (tid : ℕ) (s : StoreDB)
    (x : String) :
    usageCount (stepKeywords td now tid (stepMedia td tid (stepMentions td tid s))) x
      = usageCount s x := by
  unfold usageCount
  rw [(stepKeywords_frame td now tid (stepMedia td tid (stepMentions td tid s))).2.2,
    (stepMedia_frame td tid (stepMentions td tid s)).2.2,
    (stepMentions_frame td tid s).2.1]

theorem save_or_update_user_usage (cfg : List TrackedAccount) (db : StoreDB)
    (ud : UserData) (x : String) :
    usageCount (save_or_update_user cfg db ud).2 x = usageCount db x := by
  unfold usageCount
  rw [(save_or_update_user_frame cfg db ud).2.1]

theorem save_tweet_usage (cfg : List TrackedAccount) (now : ℤ) (db : StoreDB)
    (td : TweetData) (x : String)
    (hfind : db.tweets.find? (fun t => t.tweet_id == td.tweet_id) = none) :
    usageCount (save_tweet cfg noErr now db td).2 x
      = usageCount db x
        + (((hashtagsOf td).countP (fun t => normalizeTag t == x) : ℕ) : ℤ) := by
  simp only [save_tweet, hfind, noErr, Bool.false_and, Bool.and_false, if_false,
    Bool.false_eq_true, reduceIte]
  rw [post_steps_usage, stepHashtags_usage]
  have h1 : usageCount
      (insertTweet (save_or_update_user cfg db (userDataOfTweet td)).2 td).2 x
      = usageCount (save_or_update_user cfg db (userDataOfTweet td)).2 x := rfl
  rw [h1, save_or_update_user_usage]

theorem save_tweets_snd_cons (cfg : List TrackedAccount) (err : ℕ → Step → Bool)
    (now : ℤ) (db : StoreDB) (td : TweetData) (rest : List TweetData) :
    (save_tweets cfg err now db (td :: rest)).2
      = (save_tweets cfg (fun n => err (n + 1)) now
          (save_tweet cfg (err 0) now db td).2 rest).2 := by
  cases h : (save_tweet cfg (err 0) now db td).1 with
  | none => simp [save_tweets, h]
  | some i => simp [save_tweets, h]

theorem save_tweets_usage (cfg : List TrackedAccount) (now : ℤ) (x : String) :
    ∀ (tds : List TweetData) (db : StoreDB),
      (∀ td ∈ tds, db.tweets.find? (fun t => t.tweet_id == td.tweet_id) = none) →
      (tds.map (fun td => td.tweet_id)).Nodup →
      usageCount (save_tweets cfg noErrB now db tds).2 x
        = usageCount db x
          + (tds.map (fun td =>
              (((hashtagsOf td).countP (fun t => normalizeTag t == x) : ℕ) : ℤ))).sum := by
  intro tds
  induction tds with
  | nil => intro db _ _; simp [save_tweets]
  | cons td rest ih =>
    intro db hfresh hnodup
    have hfind : db.tweets.find? (fun t => t.tweet_id == td.tweet_id) = none :=
      hfresh td (List.mem_cons_self td rest)
    rcases save_tweet_shape cfg noErr now db td hfind with hL | ⟨row, hr1, hr2, hr3⟩
    · exfalso
      have : (save_tweet cfg noErr now db td).1
          = some (insertTweet (save_or_update_user cfg db (userDataOfTweet td)).2 td).1 := by
        simp [save_tweet, hfind, noErr]
      rw [hL] at this
      simp at this
    · have hsnd := save_tweets_snd_cons cfg noErrB now db td rest
      have horacle : (fun n => noErrB (n + 1)) = noErrB := rfl
      have hzero : noErrB 0 = noErr := rfl
      rw [horacle, hzero] at hsnd
      rw [hsnd]
      have hnodup' : (td.tweet_id :: rest.map (fun td => td.tweet_id)).Nodup := by
        simpa using hnodup
      have hnodup2 := List.nodup_cons.mp hnodup'
      have hfresh2 : ∀ td' ∈ rest,
          (save_tweet cfg noErr now db td).2.tweets.find?
            (fun t => t.tweet_id == td'.tweet_id) = none := by
        intro td' hmem
        rw [hr3, find?_append_of_none _ _ _ (hfresh td' (List.mem_cons_of_mem td hmem))]
        have hne : row.tweet_id ≠ td'.tweet_id := by
          rw [hr2]
          intro hcontra
          have hmm : td'.tweet_id ∈ rest.map (fun td => td.tweet_id) :=
            List.mem_map_of_mem (fun td => td.tweet_id) hmem

          rw [← hcontra] at hmm
          exact hnodup2.1 hmm
        simp [List.find?, beq_eq_false_iff_ne.mpr hne]
      rw [ih (save_tweet cfg noErr now db td).2 hfresh2 hnodup2.2,
        save_tweet_usage cfg now db td x hfind]
      simp only [List.map_cons, List.sum_cons]
      ring

/-- C7: ingesting N raw records with pairwise-distinct fresh external ids,
each carrying exactly one hashtag normalizing to `x`, onto a store with no
row for `x`, leaves the hashtag row for `x` with `usage_count` exactly N:
one increment per post association, starting at 1 on first sight. -/
theorem hashtag_usage_counts (cfg : List TrackedAccount) (now : ℤ) (db : StoreDB)
    (tds : List TweetData) (x : String)
    (h1 : ∀ td ∈ tds, (hashtagsOf td).countP (fun t => normalizeTag t == x) = 1)
    (h2 : (tds.map (fun td => td.tweet_id)).Nodup)
    (h3 : ∀ td ∈ tds, db.tweets.find? (fun t => t.tweet_id == td.tweet_id) = none)
    (h4 : db.hashtags.find? (fun h => h.text == x) = none) :
    usageCount (save_tweets cfg noErrB now db tds).2 x = tds.length := by
  rw [save_tweets_usage cfg now x tds db h3 h2]
  have hz : usageCount db x = 0 := by
    unfold usageCount
    rw [h4]
  rw [hz, zero_add]
  have hmap : tds.map (fun td =>
      (((hashtagsOf td).countP (fun t => normalizeTag t == x) : ℕ) : ℤ))
      = tds.map (fun _ => (1 : ℤ)) := by
    apply List.map_congr_left
    intro td hmem
    rw [h1 td hmem]
    norm_num
  rw [hmap]
  simp [List.map_const', List.sum_replicate, nsmul_eq_mul]

/-- C7 witness: two fresh posts each tagged with hashtag x on an empty
store yield a usage count of 2 for x. -/
theorem hashtag_usage_counts_witness :
    usageCount (save_tweets [] noErrB 0 ⟨[], [], [], [], [], [], [], [], 1, 1, 1⟩
      [⟨("t1"), ("u1"), ("bob"), ("Bob"), ("hello"), 0, none, none, none, none,
        none, none, none, none, none, none, none, some [("x")], none, none, none⟩,
       ⟨("t2"), ("u2"), ("eve"), ("Eve"), ("hi"), 0, none, none, none, none,
        none, none, none, none, none, none, none, some [("x")], none, none, none⟩]).2
      ("x") = 2 :=
  hashtag_usage_counts [] 0 ⟨[], [], [], [], [], [], [], [], 1, 1, 1⟩
    [⟨("t1"), ("u1"), ("bob"), ("Bob"), ("hello"), 0, none, none, none, none,
      none, none, none, none, none, none, none, some [("x")], none, none, none⟩,
     ⟨("t2"), ("u2"), ("eve"), ("Eve"), ("hi"), 0, none, none, none, none,
      none, none, none, none, none, none, none, some [("x")], none, none, none⟩]
    ("x") (by decide) (by decide) (by decide) rfl

/- ## Tracked-author override (claim C6) -/

theorem applyTracked_user_id (cfg : List TrackedAccount) (u : UserRow) :
    (applyTracked cfg u).user_id = u.user_id := by
  unfold applyTracked
  split
  · rfl
  · rfl

theorem applyTracked_spec (cfg : List TrackedAccount) (u : UserRow)
    (acc : TrackedAccount) (imp : ℤ)
    (hacc : tracked_lookup cfg u.username = some acc)
    (himp : acc.importance = some imp) :
    (applyTracked cfg u).is_tracked = true ∧ (applyTracked cfg u).importance = imp := by
  unfold applyTracked
  rw [hacc]
  exact ⟨rfl, by simp [himp]⟩

theorem save_or_update_user_tracked (cfg : List TrackedAccount) (db : StoreDB)
    (ud : UserData) (acc : TrackedAccount) (imp : ℤ)
    (hacc : tracked_lookup cfg ud.username = some acc)
    (himp : acc.importance = some imp) :
    ∃ u : UserRow,
      (save_or_update_user cfg db ud).2.users.find?
        (fun v => v.user_id == ud.user_id) = some u ∧
      u.is_tracked = true ∧ u.importance = imp := by
  unfold save_or_update_user
  cases hfind : db.users.find? (fun u => u.user_id == ud.user_id) with
  | some u0 =>
    simp only [hfind]
    rw [find?_updFirst_self (fun u => u.user_id == ud.user_id)
      (fun u => applyTracked cfg (applyUserUpdate ud u)) db.users
      (fun a => by simp [applyTracked_user_id, applyUserUpdate]), hfind]
    refine ⟨applyTracked cfg (applyUserUpdate ud u0), rfl, ?_⟩
    have huname : (applyUserUpdate ud u0).username = ud.username := rfl
    exact applyTracked_spec cfg (applyUserUpdate ud u0) acc imp
      (by rw [huname]; exact hacc) himp
  | none =>
    simp only [hfind]
    rw [find?_append_of_none _ _ _ hfind]
    refine ⟨applyTracked cfg
      ⟨ud.user_id, ud.username, ud.display_name, ud.bio, ud.followers_count.getD 0,
       ud.following_count.getD 0, ud.tweet_count.getD 0, ud.created_at,
       ud.profile_image_url, ud.verified.getD false, ud.is_tracked.getD false,
       ud.importance.getD 0, ud.json_data⟩, ?_, ?_⟩
    · simp [List.find?, applyTracked_user_id]
    · exact applyTracked_spec cfg _ acc imp hacc himp

theorem post_steps_users (td : TweetData) (now : ℤ) (tid : ℕ) (s : StoreDB) :
    ∃ ext, (stepKeywords td now tid
      (stepMedia td tid (stepMentions td tid (stepHashtags td now tid s)))).users
        = s.users ++ ext := by
  obtain ⟨e, he⟩ := (stepMentions_frame td tid (stepHashtags td now tid s)).2.2
  have h1 := (stepHashtags_frame td now tid s).2
  have h2 := (stepMedia_frame td tid (stepMentions td tid (stepHashtags td now tid s))).2.1
  have h3 := (stepKeywords_frame td now tid
    (stepMedia td tid (stepMentions td tid (stepHashtags td now tid s)))).2.1
  exact ⟨e, by rw [h3, h2, he, h1]⟩

/-- C6: when the raw record's author handle is configured as tracked with
an explicit importance, a successful ingestion leaves the stored author row
with `is_tracked = true` and the configured importance, whatever the raw
payload or the previously stored row said. -/
theorem tracked_author_config_overrides (cfg : List TrackedAccount) (now : ℤ)
    (db : StoreDB) (td : TweetData) (acc : TrackedAccount) (imp : ℤ)
    (hfind : db.tweets.find? (fun t => t.tweet_id == td.tweet_id) = none)
    (hacc : tracked_lookup cfg td.username = some acc)
    (himp : acc.importance = some imp) :
    ∃ u : UserRow,
      (save_tweet cfg noErr now db td).2.users.find?
        (fun v => v.user_id == td.user_id) = some u ∧
      u.is_tracked = true ∧ u.importance = imp := by
  obtain ⟨u, hu, hti, himp2⟩ :=
    save_or_update_user_tracked cfg db (userDataOfTweet td) acc imp hacc himp
  obtain ⟨ext, hext⟩ := post_steps_users td now
    (insertTweet (save_or_update_user cfg db (userDataOfTweet td)).2 td).1
    (insertTweet (save_or_update_user cfg db (userDataOfTweet td)).2 td).2
  refine ⟨u, ?_, hti, himp2⟩
  simp only [save_tweet, hfind, noErr, Bool.false_and, Bool.and_false, if_false,
    Bool.false_eq_true, reduceIte]
  rw [hext]
  have hiu : (insertTweet (save_or_update_user cfg db (userDataOfTweet td)).2 td).2.users
      = (save_or_update_user cfg db (userDataOfTweet td)).2.users := rfl
  rw [hiu]
  exact find?_append_of_some _ _ _ _ hu

/-- C6 witness: the specification's example -- author bob configured as
tracked with importance 8, raw payload implying importance 0 -- ends with
the stored author row tracked at importance 8. -/
theorem tracked_author_config_overrides_witness :
    ∃ u : UserRow,
      (save_tweet [⟨("bob"), some 8⟩] noErr 0
        ⟨[], [], [], [], [], [], [], [], 1, 1, 1⟩
        ⟨("t1"), ("u1"), ("bob"), ("Bob"), ("hello"), 0, none, none, none, none,
         none, none, none, none, none, none, none, none, none, none, none⟩).2.users.find?
        (fun v => v.user_id == ("u1")) = some u ∧
      u.is_tracked = true ∧ u.importance = 8 :=
  tracked_author_config_overrides [⟨("bob"), some 8⟩] 0
    ⟨[], [], [], [], [], [], [], [], 1, 1, 1⟩
    ⟨("t1"), ("u1"), ("bob"), ("Bob"), ("hello"), 0, none, none, none, none,
     none, none, none, none, none, none, none, none, none, none, none⟩
    ⟨("bob"), some 8⟩ 8 rfl (by decide) rfl

/- ## Credential selection (claims C2 and C10) -/

theorem head?_insertDesc {α : Type} (x : α × ℚ) (l : List (α × ℚ)) :
    (insertDesc x l).head? = firstMaxStep l.head? x := by
  cases l with
  | nil => rfl
  | cons y ys =>
    by_cases h : y.2 < x.2
    · simp [insertDesc, firstMaxStep, h]
    · simp [insertDesc, firstMaxStep, h]

theorem sort_head_eq_firstMax {α : Type} (l : List (α × ℚ)) :
    (sortByScoreDesc l).head? = l.foldl firstMaxStep none := by
  induction l using List.reverseRecOn with
  | nil => rfl
  | append_singleton l x ih =>
    have h1 : sortByScoreDesc (l ++ [x]) = insertDesc x (sortByScoreDesc l) := by
      unfold sortByScoreDesc
      rw [List.foldl_append]
      rfl
    rw [h1, head?_insertDesc, ih, List.foldl_append]
    rfl

theorem foldl_firstMax_isSome {α : Type} (l : List (α × ℚ)) :
    ∀ b : α × ℚ, ∃ m, l.foldl firstMaxStep (some b) = some m := by
  induction l with
  | nil => intro b; exact ⟨b, rfl⟩
  | cons y l ih =>
    intro b
    by_cases h : b.2 < y.2
    · simpa [firstMaxStep, h] using ih y
    · simpa [firstMaxStep, h] using ih b

theorem foldl_firstMax_some {α : Type} (l : List (α × ℚ)) :
    ∀ b m : α × ℚ, l.foldl firstMaxStep (some b) = some m →
    (m = b ∧ ∀ p ∈ l, p.2 ≤ b.2) ∨
    (∃ l₁ l₂, l = l₁ ++ m :: l₂ ∧ b.2 < m.2 ∧ (∀ p ∈ l₁, p.2 < m.2) ∧
      (∀ p ∈ l₂, p.2 ≤ m.2)) := by
  induction l with
  | nil =>
    intro b m h
    simp only [List.foldl_nil, Option.some.injEq] at h
    exact Or.inl ⟨h.symm, by simp⟩
  | cons y l ih =>
    intro b m h
    by_cases hy : b.2 < y.2
    · have h' : l.foldl firstMaxStep (some y) = some m := by
        simpa [firstMaxStep, hy] using h
      rcases ih y m h' with ⟨hm, hall⟩ | ⟨l₁, l₂, heq, hlt, hl₁, hl₂⟩
      · subst hm
        exact Or.inr ⟨[], l, by simp, hy, by simp, hall⟩
      · refine Or.inr ⟨y :: l₁, l₂, by simp [heq], lt_trans hy hlt, ?_, hl₂⟩
        intro p hp
        rcases List.mem_cons.mp hp with rfl | hp'
        · exact hlt
        · exact hl₁ p hp'
    · have h' : l.foldl firstMaxStep (some b) = some m := by
        simpa [firstMaxStep, hy] using h
      rcases ih b m h' with ⟨hm, hall⟩ | ⟨l₁, l₂, heq, hlt, hl₁, hl₂⟩
      · refine Or.inl ⟨hm, ?_⟩
        intro p hp
        rcases List.mem_cons.mp hp with rfl | hp'
        · exact le_of_not_lt hy
        · exact hall p hp'
      · refine Or.inr ⟨y :: l₁, l₂, by simp [heq], hlt, ?_, hl₂⟩
        intro p hp
        rcases List.mem_cons.mp hp with rfl | hp'
        · exact lt_of_le_of_lt (le_of_not_lt hy) hlt
        · exact hl₁ p hp'

theorem all_le_of_split {α : Type} (l₁ l₂ : List (α × ℚ)) (m : α × ℚ)
    (hl₁ : ∀ p ∈ l₁, p.2 < m.2) (hl₂ : ∀ p ∈ l₂, p.2 ≤ m.2) :
    ∀ p ∈ l₁ ++ m :: l₂, p.2 ≤ m.2 := by
  intro p hp
  rcases List.mem_append.mp hp with h | h
  · exact le_of_lt (hl₁ p h)
  · rcases List.mem_cons.mp h with rfl | h'
    · exact le_refl _
    · exact hl₂ p h'

theorem firstMax_spec {α : Type} (l : List (α × ℚ)) (m : α × ℚ)
    (h : l.foldl firstMaxStep none = some m) :
    ∃ l₁ l₂, l = l₁ ++ m :: l₂ ∧ (∀ p ∈ l₁, p.2 < m.2) ∧
      (∀ p ∈ l, p.2 ≤ m.2) := by
  cases l with
  | nil => simp at h
  | cons y l =>
    have h' : l.foldl firstMaxStep (some y) = some m := by
      simpa [firstMaxStep] using h
    rcases foldl_firstMax_some l y m h' with ⟨hm, hall⟩ | ⟨l₁, l₂, heq, hlt, hl₁, hl₂⟩
    · subst hm
      refine ⟨[], l, by simp, by simp, ?_⟩
      intro p hp
      rcases List.mem_cons.mp hp with rfl | hp'
      · exact le_refl _
      · exact hall p hp'
    · refine ⟨y :: l₁, l₂, by simp [heq], ?_, ?_⟩
      · intro p hp
        rcases List.mem_cons.mp hp with rfl | hp'
        · exact hlt
        · exact hl₁ p hp'
      · intro p hp
        rcases List.mem_cons.mp hp with rfl | hp'
        · exact le_of_lt hlt
        · exact all_le_of_split l₁ l₂ m hl₁ hl₂ p (heq ▸ hp')

theorem available_eq_healthy_map (m : AccountManager) (now : ℤ) :
    available_accounts m now
      = (healthy m now).map (fun a => (a, scoreOf m now a)) := by
  unfold available_accounts healthy get_active_accounts
  induction m.accounts with
  | nil => rfl
  | cons a l ih =>
    by_cases ha : a.active = true
    · by_cases hr : isRateLimited m now a.username = true
      · simpa [List.filter_cons, List.filterMap_cons, ha, hr] using ih
      · simpa [List.filter_cons, List.filterMap_cons, ha, hr] using ih
    · simpa [List.filter_cons, ha] using ih

theorem healthy_mem_props (m : AccountManager) (now : ℤ) (c : Account)
    (hc : c ∈ healthy m now) :
    c ∈ m.accounts ∧ c.active = true ∧ isRateLimited m now c.username = false := by
  obtain ⟨hmem, hp⟩ := List.mem_filter.mp hc
  rw [Bool.and_eq_true, Bool.not_eq_true'] at hp
  exact ⟨hmem, hp.1, hp.2⟩

/-- C2: `get_healthy_account` considers exactly the active, non-rate-limited
credentials; it returns `None` exactly when that set is empty; a returned
credential is one of them (stamped with `last_used = now`), and it is the
first candidate in pool order attaining the maximal score; a pool whose
healthy set is a singleton yields exactly that credential; and the score of
a never-used credential with no rate-limit record is
`0.7 * 1000 + 0.3 * 100 = 730`. -/
theorem account_selection (m : AccountManager) (now : ℤ) :
    ((get_healthy_account m now).1 = none ↔ healthy m now = []) ∧
    (∀ a, (get_healthy_account m now).1 = some a →
      ∃ c, a = { c with last_used := some now } ∧ c.active = true ∧
        isRateLimited m now c.username = false ∧
        ∃ l₁ l₂, available_accounts m now = l₁ ++ (c, scoreOf m now c) :: l₂ ∧
          (∀ p ∈ l₁, p.2 < scoreOf m now c) ∧
          (∀ p ∈ available_accounts m now, p.2 ≤ scoreOf m now c)) ∧
    (∀ c, healthy m now = [c] →
      (get_healthy_account m now).1 = some { c with last_used := some now }) ∧
    (∀ a, a.last_used = none → alookup a.username m.rate_limits = none →
      scoreOf m now a = 730) := by
  have havail := available_eq_healthy_map m now
  refine ⟨?_, ?_, ?_, ?_⟩
  · by_cases hact : (get_active_accounts m).isEmpty = true
    · have hres : (get_healthy_account m now).1 = none := by
        simp [get_healthy_account, hact]
      have hheal : healthy m now = [] := by
        have hnil : get_active_accounts m = [] := List.isEmpty_iff.mp hact
        unfold get_active_accounts at hnil
        unfold healthy
        rw [List.filter_eq_nil_iff] at hnil ⊢
        intro a hmem
        simp [hnil a hmem]
      simp [hres, hheal]
    · by_cases hav : (available_accounts m now).isEmpty = true
      · have hres : (get_healthy_account m now).1 = none := by
          simp [get_healthy_account, hact, hav]
        have hheal : healthy m now = [] := by
          have hnil := List.isEmpty_iff.mp hav
          rw [havail] at hnil
          exact List.map_eq_nil_iff.mp hnil
        simp [hres, hheal]
      · have hne : available_accounts m now ≠ [] := by
          intro hc
          rw [hc] at hav
          simp at hav
        obtain ⟨y, l, hyl⟩ := List.exists_cons_of_ne_nil hne
        obtain ⟨mx, hmx⟩ := foldl_firstMax_isSome l y
        have hhead : (sortByScoreDesc (available_accounts m now)).head? = some mx := by
          rw [sort_head_eq_firstMax, hyl]
          simpa [firstMaxStep] using hmx
        have hres : (get_healthy_account m now).1
            = some { mx.1 with last_used := some now } := by
          simp [get_healthy_account, hact, hav, hhead]
        have hheal : healthy m now ≠ [] := by
          intro hc
          rw [hc] at havail
          exact hne (by simpa using havail)
        simp [hres, hheal]
  · intro a hres
    by_cases hact : (get_active_accounts m).isEmpty = true
    · simp [get_healthy_account, hact] at hres
    · by_cases hav : (available_accounts m now).isEmpty = true
      · simp [get_healthy_account, hact, hav] at hres
      · cases hhead : (sortByScoreDesc (available_accounts m now)).head? with
        | none =>
          simp [get_healthy_account, hact, hav, hhead] at hres
        | some sel =>
          have ha : a = { sel.1 with last_used := some now } := by
            have := hres
            simp [get_healthy_account, hact, hav, hhead] at this
            exact this.symm
          have hfm : (available_accounts m now).foldl firstMaxStep none = some sel := by
            rw [← sort_head_eq_firstMax]
            exact hhead
          obtain ⟨l₁, l₂, heq, hl₁, hall⟩ :=
            firstMax_spec (available_accounts m now) sel hfm
          have hmem : sel ∈ available_accounts m now := by
            rw [heq]
            exact List.mem_append_right l₁ (List.mem_cons_self sel l₂)
          rw [havail] at hmem
          obtain ⟨c, hcmem, hcsel⟩ := List.mem_map.mp hmem
          obtain ⟨_, hcact, hcrl⟩ := healthy_mem_props m now c hcmem
          refine ⟨c, ?_, hcact, hcrl, l₁, l₂, ?_, ?_, ?_⟩
          · rw [ha, ← hcsel]
          · rw [← hcsel] at heq
            exact heq
          · intro p hp
            have := hl₁ p hp
            rw [← hcsel] at this
            exact this
          · intro p hp
            have := hall p hp
            rw [← hcsel] at this
            exact this
  · intro c hheal
    have hav1 : available_accounts m now = [(c, scoreOf m now c)] := by
      rw [havail, hheal]
      rfl
    have hcact := (healthy_mem_props m now c (hheal ▸ List.mem_cons_self c [])).2.1
    have hcacc : c ∈ get_active_accounts m := by
      unfold get_active_accounts
      exact List.mem_filter.mpr
        ⟨(healthy_mem_props m now c (hheal ▸ List.mem_cons_self c [])).1, hcact⟩
    have hact : (get_active_accounts m).isEmpty = false := by
      cases hl : get_active_accounts m with
      | nil => rw [hl] at hcacc; simp at hcacc
      | cons x xs => simp [hl]
    have hhead2 : (sortByScoreDesc [(c, scoreOf m now c)]).head?
        = some (c, scoreOf m now c) := rfl
    simp [get_healthy_account, hact, hav1, hhead2]
  · intro a hlu hrl
    unfold scoreOf idleMinutes remainingOf
    rw [hlu, hrl]
    norm_num

/-- C2 witness: in a pool where exactly alice is active and not
rate-limited (bob is inactive), the selector returns alice stamped with the
selection time. -/
theorem account_selection_witness :
    (get_healthy_account
      ⟨[⟨("alice"), ("pw"), ("a@x"), ("pw2"), true, none⟩,
        ⟨("bob"), ("pw"), ("b@x"), ("pw2"), false, none⟩], [], []⟩ 60).1
      = some ⟨("alice"), ("pw"), ("a@x"), ("pw2"), true, some 60⟩ :=
  (account_selection
    ⟨[⟨("alice"), ("pw"), ("a@x"), ("pw2"), true, none⟩,
      ⟨("bob"), ("pw"), ("b@x"), ("pw2"), false, none⟩], [], []⟩ 60).2.2.1
    ⟨("alice"), ("pw"), ("a@x"), ("pw2"), true, none⟩ (by decide)

theorem setFirstActive_usernames (u : String) (b : Bool) :
    ∀ l : List Account, (setFirstActive u b l).map (fun a => a.username)
      = l.map (fun a => a.username) := by
  intro l
  induction l with
  | nil => rfl
  | cons a l ih =>
    by_cases h : (a.username == u) = true
    · simp [setFirstActive, h]
    · simp [setFirstActive, h, ih]

theorem get_healthy_account_usernames (m : AccountManager) (now : ℤ) :
    usernames (get_healthy_account m now).2 = usernames m := by
  by_cases h1 : (get_active_accounts m).isEmpty = true
  · simp [get_healthy_account, usernames, h1]
  · by_cases h2 : (available_accounts m now).isEmpty = true
    · simp [get_healthy_account, usernames, h1, h2]
    · cases hh : (sortByScoreDesc (available_accounts m now)).head? with
      | none => simp [get_healthy_account, usernames, h1, h2, hh]
      | some sel =>
        simp only [get_healthy_account, usernames, h1, h2, hh, Bool.false_eq_true,
          if_false, reduceIte]
        rw [List.map_map]
        apply List.map_congr_left
        intro a _
        by_cases hs : a.username = sel.1.username <;> simp [hs]

theorem applyOp_usernames_nodup (m : AccountManager) (op : PoolOp)
    (h : (usernames m).Nodup) : (usernames (applyOp m op)).Nodup := by
  cases op with
  | add u p e ep =>
    by_cases hdup : (m.accounts.any (fun a => a.username == u)) = true
    · simpa [applyOp, add_account, hdup] using h
    · have hnotin : u ∉ usernames m := by
        intro hmem
        obtain ⟨a, hamem, haeq⟩ := List.mem_map.mp hmem
        have haeq' : a.username = u := haeq
        exact hdup (List.any_eq_true.mpr ⟨a, hamem, by simp [haeq']⟩)
      have : usernames (applyOp m (PoolOp.add u p e ep))
          = usernames m ++ [u] := by
        simp [applyOp, add_account, hdup, usernames]
      rw [this]
      simp [List.nodup_append, h, hnotin]
  | setStatus u b =>
    by_cases hmem : (m.accounts.any (fun a => a.username == u)) = true
    · have : usernames (applyOp m (PoolOp.setStatus u b)) = usernames m := by
        simp only [applyOp, set_account_status, hmem, if_true]
        exact setFirstActive_usernames u b m.accounts
      rw [this]
      exact h
    · simpa [applyOp, set_account_status, hmem] using h
  | acquire now =>
    have : usernames (applyOp m (PoolOp.acquire now)) = usernames m :=
      get_healthy_account_usernames m now
    rw [this]
    exact h

/-- C10: adding an account whose username is already pooled is a complete
no-op (no account appended, no file write), and any sequence of
`add_account`, `set_account_status` and `get_healthy_account` operations
starting from a duplicate-free pool keeps all usernames pairwise
distinct. -/
theorem pool_username_uniqueness (m : AccountManager) :
    (∀ u p e ep, (m.accounts.any (fun a => a.username == u)) = true →
      add_account m u p e ep = m) ∧
    (∀ ops : List PoolOp, (usernames m).Nodup →
      (usernames (ops.foldl applyOp m)).Nodup) := by
  constructor
  · intro u p e ep h
    unfold add_account
    rw [if_pos h]
  · intro ops
    induction ops generalizing m with
    | nil => intro h; exact h
    | cons op rest ih =>
      intro h
      exact ih (applyOp m op) (applyOp_usernames_nodup m op h)

/-- C10 witness: re-adding pooled alice leaves the two-account pool
unchanged, and a run of add, deactivate and acquire operations keeps the
usernames pairwise distinct. -/
theorem pool_username_uniqueness_witness :
    (add_account
      ⟨[⟨("alice"), ("pw"), ("a@x"), ("pw2"), true, none⟩,
        ⟨("bob"), ("pw"), ("b@x"), ("pw2"), false, none⟩], [], []⟩
      ("alice") ("q") ("q@x") ("q2")
      = ⟨[⟨("alice"), ("pw"), ("a@x"), ("pw2"), true, none⟩,
          ⟨("bob"), ("pw"), ("b@x"), ("pw2"), false, none⟩], [], []⟩) ∧
    (usernames
      ([PoolOp.add ("carol") ("pw") ("c@x") ("pw2"),
        PoolOp.setStatus ("alice") false,
        PoolOp.acquire 60].foldl applyOp
        ⟨[⟨("alice"), ("pw"), ("a@x"), ("pw2"), true, none⟩,
          ⟨("bob"), ("pw"), ("b@x"), ("pw2"), false, none⟩], [], []⟩)).Nodup := by
  constructor
  · exact (pool_username_uniqueness
      ⟨[⟨("alice"), ("pw"), ("a@x"), ("pw2"), true, none⟩,
        ⟨("bob"), ("pw"), ("b@x"), ("pw2"), false, none⟩], [], []⟩).1
      ("alice") ("q") ("q@x") ("q2") (by decide)
  · exact (pool_username_uniqueness
      ⟨[⟨("alice"), ("pw"), ("a@x"), ("pw2"), true, none⟩,
        ⟨("bob"), ("pw"), ("b@x"), ("pw2"), false, none⟩], [], []⟩).2
      [PoolOp.add ("carol") ("pw") ("c@x") ("pw2"),
       PoolOp.setStatus ("alice") false,
       PoolOp.acquire 60] (by decide)

end Rasad
